import Mathlib

/-!
# Verification of the crypto historical-data feature-derivation engine

A shallow embedding of the rolling-window feature computations of the
repository (files `utils.py`, `metrics_calculations.py`, `ml_model.py`).

Modelling conventions:
* A pandas row (one OHLC bar) is a `Bar`; a DataFrame of bars is a
  `List Bar`, whose positional index is the dense zero-based index.
* Dates (after `pd.to_datetime`) are modelled as integers (day numbers);
  subtracting two dates and taking `.days` is integer subtraction.
* Prices are exact rationals `ℚ` (inputs are assumed finite, non-NaN).
* A derived numeric column that can contain NaN is a `List (Option ℚ)`
  (`none` = NaN / NaT); a float column that can also contain infinities
  (the percentage-difference columns) uses the value type `FVal`.
* `pandas.Series.max()` / `.min()` (NaN on empty input) are modelled by
  `seriesMax` / `seriesMin` returning `Option`.
-/

/-- One OHLC bar: a row of the DataFrame with columns
`Date`, `Open`, `High`, `Low`, `Close`. -/
structure Bar where
  Date : ℤ
  Open : ℚ
  High : ℚ
  Low : ℚ
  Close : ℚ
deriving DecidableEq, Repr

/-- `pandas.Series.max()`: `none` on an empty series, otherwise the maximum.
(Inputs are NaN-free in this model.) -/
def seriesMax {α : Type} [LinearOrder α] : List α → Option α
  | [] => none
  | x :: xs =>
    match seriesMax xs with
    | none => some x
    | some m => some (max x m)

/-- `pandas.Series.min()`: `none` on an empty series, otherwise the minimum. -/
def seriesMin {α : Type} [LinearOrder α] : List α → Option α
  | [] => none
  | x :: xs =>
    match seriesMin xs with
    | none => some x
    | some m => some (min x m)

/-- The contiguous row slice `[lo, hi]` (inclusive) of a column,
i.e. `xs[lo..hi]` — rows `lo` through `hi`. -/
def rowSlice {α : Type} (xs : List α) (lo hi : ℕ) : List α :=
  (xs.take (hi + 1)).drop lo

/-- `utils.calculate_historical_high`:
`data["High"].rolling(window=days, min_periods=1).max()` — at row `i` the
maximum of `High` over rows `[max(0, i-days+1), i]` (`min_periods=1` makes
the short startup windows defined). `ℕ` subtraction gives the `max(0, ·)`. -/
def calculate_historical_high (data : List Bar) (days : ℕ) : List (Option ℚ) :=
  (List.range data.length).map fun i =>
    seriesMax (rowSlice (data.map Bar.High) (i + 1 - days) i)

/-- `utils.calculate_historical_low`:
`data["Low"].rolling(window=days, min_periods=1).min()`. -/
def calculate_historical_low (data : List Bar) (days : ℕ) : List (Option ℚ) :=
  (List.range data.length).map fun i =>
    seriesMin (rowSlice (data.map Bar.Low) (i + 1 - days) i)

/-- Common body of `utils.days_since_high` / `utils.days_since_low`
(the two functions are textually identical up to the selected column and
the extreme taken):
```
subset = data.loc[max(0, index - days + 1) : index]
value  = ext(subset[col])               # .max() resp. .min()
date   = subset.loc[subset[col] == value, "Date"].max()
return (data.loc[index, "Date"] - date).days if date is not NaT else None
```
-/
def days_since_ext (sel : Bar → ℚ) (ext : List ℚ → Option ℚ)
    (data : List Bar) (index days : ℕ) : Option ℤ :=
  let subset := rowSlice data (index + 1 - days) index
  let value := ext (subset.map sel)
  let date := seriesMax ((subset.filter fun b => decide (some (sel b) = value)).map Bar.Date)
  match date, (data.map Bar.Date)[index]? with
  | some d, some di => some (di - d)
  | _, _ => none

/-- `utils.days_since_high`. -/
def days_since_high (data : List Bar) (index days : ℕ) : Option ℤ :=
  days_since_ext Bar.High seriesMax data index days

/-- `utils.days_since_low`. -/
def days_since_low (data : List Bar) (index days : ℕ) : Option ℤ :=
  days_since_ext Bar.Low seriesMin data index days

/-- Value type of a float column that may hold infinities or NaN
(the percentage-difference columns). -/
inductive FVal where
  | fin (q : ℚ)
  | inf
  | ninf
  | nan
deriving DecidableEq, Repr

/-- `true` iff the value is an ordinary finite float. -/
def FVal.isFinite : FVal → Bool
  | .fin _ => true
  | _ => false

/-- IEEE-style round-half-to-even to an integer (what `round` /
`numpy.round` do on the scaled value). -/
def roundHalfEven (q : ℚ) : ℤ :=
  if q - ⌊q⌋ < 1 / 2 then ⌊q⌋
  else if (1 : ℚ) / 2 < q - ⌊q⌋ then ⌊q⌋ + 1
  else if ⌊q⌋ % 2 = 0 then ⌊q⌋ else ⌊q⌋ + 1

/-- `round(x, 2)`: round to 2 decimal places, ties to even. -/
def round2 (q : ℚ) : ℚ := (roundHalfEven (q * 100) : ℚ) / 100

/-- One element of `round(((current - reference) / reference) * 100, 2)`,
with the float semantics of a zero or NaN reference: `c/0` is `+inf` for
`c > 0`, `-inf` for `c < 0`, NaN for `c = 0`; NaN propagates. -/
def pctDiffVal (current : ℚ) (reference : Option ℚ) : FVal :=
  match reference with
  | none => FVal.nan
  | some r =>
    if r = 0 then
      if 0 < current then FVal.inf
      else if current < 0 then FVal.ninf
      else FVal.nan
    else FVal.fin (round2 ((current - r) / r * 100))

/-- `utils.calculate_pct_diff`:
`round(((current - reference) / reference) * 100, 2)` element-wise over two
aligned series (`current` a plain price column, `reference` a derived
extreme column that may hold NaN). -/
def calculate_pct_diff (current : List ℚ) (reference : List (Option ℚ)) : List FVal :=
  List.zipWith pctDiffVal current reference

/-- `utils.calculate_future_high`: for each row `i`,
`data["High"].iloc[i+1 : min(len(data), i+days)].max()` when
`i < len(data) - 1`, else `data["High"].iloc[i]` (self-fallback at the
last row). The empty-slice `.max()` is NaN (`none`). -/
def calculate_future_high (data : List Bar) (days : ℕ) : List (Option ℚ) :=
  (List.range data.length).map fun i =>
    if i < data.length - 1 then
      seriesMax (((data.map Bar.High).take (min data.length (i + days))).drop (i + 1))
    else (data.map Bar.High)[i]?

/-- `utils.calculate_future_low`: symmetric minimum over `Low`. -/
def calculate_future_low (data : List Bar) (days : ℕ) : List (Option ℚ) :=
  (List.range data.length).map fun i =>
    if i < data.length - 1 then
      seriesMin (((data.map Bar.Low).take (min data.length (i + days))).drop (i + 1))
    else (data.map Bar.Low)[i]?

/-- The `Days_Since_High_Last_{N}_Days` column of
`metrics_calculations.add_historical_metrics`:
`[days_since_high(data, i, variable1) if i >= variable1 - 1 else 0 for i in range(len(data))]`.
The Python list mixes `Optional[int]` with the literal `0`; an entry is
`none` for `None` and `some 0` for the literal placeholder. -/
def days_since_high_column (data : List Bar) (variable1 : ℕ) : List (Option ℤ) :=
  (List.range data.length).map fun i =>
    if variable1 - 1 ≤ i then days_since_high data i variable1 else some 0

/-- The `Days_Since_Low_Last_{N}_Days` column of
`metrics_calculations.add_historical_metrics`. -/
def days_since_low_column (data : List Bar) (variable1 : ℕ) : List (Option ℤ) :=
  (List.range data.length).map fun i =>
    if variable1 - 1 ≤ i then days_since_low data i variable1 else some 0

/-- `data.sort_values("Date").reset_index(drop=True)` of
`metrics_calculations.calculate_metrics`: sort the rows ascending by date
(some permutation of the rows that is non-decreasing in `Date`; the list
position is the dense reset index). -/
def sortBars (data : List Bar) : List Bar :=
  List.insertionSort (fun a b => a.Date ≤ b.Date) data

/-- The fully annotated frame produced by
`metrics_calculations.calculate_metrics`: the (sorted) original rows plus
the ten derived columns, in insertion order. Field names follow the
`f"..."` column names with the window length made a parameter. -/
structure MetricsFrame where
  rows : List Bar
  High_Last : List (Option ℚ)
  Days_Since_High_Last : List (Option ℤ)
  Pct_Diff_From_High_Last : List FVal
  Low_Last : List (Option ℚ)
  Days_Since_Low_Last : List (Option ℤ)
  Pct_Diff_From_Low_Last : List FVal
  High_Next : List (Option ℚ)
  Pct_Diff_From_High_Next : List FVal
  Low_Next : List (Option ℚ)
  Pct_Diff_From_Low_Next : List FVal
deriving DecidableEq, Repr

/-- `metrics_calculations.calculate_metrics`: normalize (parse dates, sort,
reset index), then `add_historical_metrics` with `variable1` and
`add_future_metrics` with `variable2`, each of which appends its derived
columns in this order. -/
def calculate_metrics (data : List Bar) (variable1 variable2 : ℕ) : MetricsFrame :=
  let d := sortBars data
  { rows := d
    High_Last := calculate_historical_high d variable1
    Days_Since_High_Last := days_since_high_column d variable1
    Pct_Diff_From_High_Last :=
      calculate_pct_diff (d.map Bar.Close) (calculate_historical_high d variable1)
    Low_Last := calculate_historical_low d variable1
    Days_Since_Low_Last := days_since_low_column d variable1
    Pct_Diff_From_Low_Last :=
      calculate_pct_diff (d.map Bar.Close) (calculate_historical_low d variable1)
    High_Next := calculate_future_high d variable2
    Pct_Diff_From_High_Next :=
      calculate_pct_diff (d.map Bar.Close) (calculate_future_high d variable2)
    Low_Next := calculate_future_low d variable2
    Pct_Diff_From_Low_Next :=
      calculate_pct_diff (d.map Bar.Close) (calculate_future_low d variable2) }

/-- A column name of the annotated frame. The source builds the names by
f-string interpolation (`f"Days_Since_High_Last_{variable1}_Days"`, …);
the templates are pairwise distinct and injective in the interpolated
window length, so names are embedded as this structured key. -/
inductive ColKey where
  | Date | Open | High | Low | Close
  | High_Last (w : ℕ)
  | Days_Since_High_Last (w : ℕ)
  | Pct_Diff_From_High_Last (w : ℕ)
  | Low_Last (w : ℕ)
  | Days_Since_Low_Last (w : ℕ)
  | Pct_Diff_From_Low_Last (w : ℕ)
  | High_Next (v : ℕ)
  | Pct_Diff_From_High_Next (v : ℕ)
  | Low_Next (v : ℕ)
  | Pct_Diff_From_Low_Next (v : ℕ)
deriving DecidableEq, Repr

/-- The column names present after `calculate_metrics` ran with windows
`W` (historical) and `V` (future), in insertion order. -/
def metricsColumns (W V : ℕ) : List ColKey :=
  [ColKey.Date, ColKey.Open, ColKey.High, ColKey.Low, ColKey.Close,
   ColKey.High_Last W, ColKey.Days_Since_High_Last W,
   ColKey.Pct_Diff_From_High_Last W, ColKey.Low_Last W,
   ColKey.Days_Since_Low_Last W, ColKey.Pct_Diff_From_Low_Last W,
   ColKey.High_Next V, ColKey.Pct_Diff_From_High_Next V,
   ColKey.Low_Next V, ColKey.Pct_Diff_From_Low_Next V]

/-- `feature_columns` of `ml_model.train_model`. -/
def feature_columns (variable1 : ℕ) : List ColKey :=
  [ColKey.Days_Since_High_Last variable1,
   ColKey.Pct_Diff_From_High_Last variable1,
   ColKey.Days_Since_Low_Last variable1,
   ColKey.Pct_Diff_From_Low_Last variable1]

/-- `target_columns` of `ml_model.train_model`. -/
def target_columns (variable2 : ℕ) : List ColKey :=
  [ColKey.Pct_Diff_From_High_Next variable2,
   ColKey.Pct_Diff_From_Low_Next variable2]

/-- `data[cols]` column selection (`X = data[feature_columns]`,
`y = data[target_columns]` in `ml_model.train_model`): succeeds when every
requested column exists, otherwise raises a `KeyError` naming exactly the
requested columns that are not in the frame. -/
def selectColumns (avail cols : List ColKey) : Except (List ColKey) (List ColKey) :=
  match cols.filter fun c => decide (c ∉ avail) with
  | [] => Except.ok cols
  | missing => Except.error missing

/-- A small concrete series (the spec's end-to-end scenario: 5 consecutive
days with `High = [10,12,9,15,11]`, `Low = [5,6,4,7,6]`). -/
def exampleBars : List Bar :=
  [⟨0, 9, 10, 5, 9⟩, ⟨1, 10, 12, 6, 11⟩, ⟨2, 11, 9, 4, 8⟩,
   ⟨3, 8, 15, 7, 14⟩, ⟨4, 14, 11, 6, 10⟩]

/-- Two bars sharing the calendar date `5`: upstream data "arbitrary or
duplicate dates not guaranteed absent". -/
def dupBars : List Bar := [⟨5, 1, 2, 0, 1⟩, ⟨5, 1, 3, 0, 2⟩]

/-- Three bars with distinct dates in scrambled order. -/
def scrambledBars : List Bar :=
  [⟨3, 1, 2, 0, 1⟩, ⟨1, 1, 2, 0, 1⟩, ⟨2, 1, 2, 0, 1⟩]

instance : IsTotal Bar (fun a b => a.Date ≤ b.Date) :=
  ⟨fun a b => le_total a.Date b.Date⟩

instance : IsTrans Bar (fun a b => a.Date ≤ b.Date) :=
  ⟨fun _ _ _ => le_trans⟩

/-! ## Helper lemmas -/

theorem seriesMax_eq_none {α : Type} [LinearOrder α] {l : List α}
    (h : seriesMax l = none) : l = [] := by
  cases l with
  | nil => rfl
  | cons a as =>
    rw [seriesMax] at h
    cases hrec : seriesMax as <;> rw [hrec] at h <;> simp at h

theorem seriesMin_eq_none {α : Type} [LinearOrder α] {l : List α}
    (h : seriesMin l = none) : l = [] := by
  cases l with
  | nil => rfl
  | cons a as =>
    rw [seriesMin] at h
    cases hrec : seriesMin as <;> rw [hrec] at h <;> simp at h

theorem seriesMax_of_ne_nil {α : Type} [LinearOrder α] {l : List α}
    (h : l ≠ []) : ∃ m, seriesMax l = some m := by
  cases hm : seriesMax l with
  | none => exact absurd (seriesMax_eq_none hm) h
  | some m => exact ⟨m, rfl⟩

theorem seriesMin_of_ne_nil {α : Type} [LinearOrder α] {l : List α}
    (h : l ≠ []) : ∃ m, seriesMin l = some m := by
  cases hm : seriesMin l with
  | none => exact absurd (seriesMin_eq_none hm) h
  | some m => exact ⟨m, rfl⟩

/-- `seriesMax` returns an attained upper bound of the list. -/
theorem seriesMax_spec {α : Type} [LinearOrder α] {l : List α} {m : α}
    (h : seriesMax l = some m) : m ∈ l ∧ ∀ x ∈ l, x ≤ m := by
  induction l generalizing m with
  | nil => simp [seriesMax] at h
  | cons a as ih =>
    rw [seriesMax] at h
    cases hrec : seriesMax as with
    | none =>
      rw [hrec] at h
      simp only [Option.some.injEq] at h
      subst h
      have : as = [] := seriesMax_eq_none hrec
      subst this
      simp
    | some m' =>
      rw [hrec] at h
      simp only [Option.some.injEq] at h
      subst h
      obtain ⟨hmem, hub⟩ := ih hrec
      refine ⟨?_, ?_⟩
      · rcases max_choice a m' with hc | hc <;> rw [hc]
        · exact List.mem_cons_self a as
        · exact List.mem_cons_of_mem a hmem
      · intro x hx
        rcases List.mem_cons.mp hx with rfl | hx'
        · exact le_max_left _ _
        · exact le_trans (hub x hx') (le_max_right _ _)

/-- `seriesMin` returns an attained lower bound of the list. -/
theorem seriesMin_spec {α : Type} [LinearOrder α] {l : List α} {m : α}
    (h : seriesMin l = some m) : m ∈ l ∧ ∀ x ∈ l, m ≤ x := by
  induction l generalizing m with
  | nil => simp [seriesMin] at h
  | cons a as ih =>
    rw [seriesMin] at h
    cases hrec : seriesMin as with
    | none =>
      rw [hrec] at h
      simp only [Option.some.injEq] at h
      subst h
      have : as = [] := seriesMin_eq_none hrec
      subst this
      simp
    | some m' =>
      rw [hrec] at h
      simp only [Option.some.injEq] at h
      subst h
      obtain ⟨hmem, hlb⟩ := ih hrec
      refine ⟨?_, ?_⟩
      · rcases min_choice a m' with hc | hc <;> rw [hc]
        · exact List.mem_cons_self a as
        · exact List.mem_cons_of_mem a hmem
      · intro x hx
        rcases List.mem_cons.mp hx with rfl | hx'
        · exact min_le_left _ _
        · exact le_trans (min_le_right _ _) (hlb x hx')

theorem rowSlice_getElem? {α : Type} (xs : List α) (lo hi t : ℕ) :
    (rowSlice xs lo hi)[t]? = if lo + t < hi + 1 then xs[lo + t]? else none := by
  rw [rowSlice, List.getElem?_drop, List.getElem?_take]

theorem length_rowSlice {α : Type} (xs : List α) (lo hi : ℕ) :
    (rowSlice xs lo hi).length = min (hi + 1) xs.length - lo := by
  rw [rowSlice, List.length_drop, List.length_take]

theorem mem_rowSlice {α : Type} {xs : List α} {lo hi : ℕ} {x : α} :
    x ∈ rowSlice xs lo hi ↔ ∃ j, lo ≤ j ∧ j ≤ hi ∧ xs[j]? = some x := by
  rw [List.mem_iff_getElem?]
  constructor
  · rintro ⟨t, ht⟩
    rw [rowSlice_getElem?] at ht
    by_cases hc : lo + t < hi + 1
    · rw [if_pos hc] at ht
      exact ⟨lo + t, Nat.le_add_right _ _, by omega, ht⟩
    · rw [if_neg hc] at ht
      exact absurd ht (by simp)
  · rintro ⟨j, hj1, hj2, hj⟩
    refine ⟨j - lo, ?_⟩
    rw [rowSlice_getElem?, if_pos (by omega)]
    rwa [Nat.add_sub_cancel' hj1]

/-- The maximum over the row window `[lo, hi]` of a column: it exists, is
attained at some row of the window, and bounds every row of the window. -/
theorem slice_max_spec (xs : List ℚ) (lo hi : ℕ)
    (hlo : lo ≤ hi) (hhi : hi < xs.length) :
    ∃ m, seriesMax (rowSlice xs lo hi) = some m ∧
      (∃ j, lo ≤ j ∧ j ≤ hi ∧ xs[j]? = some m) ∧
      (∀ j x, lo ≤ j → j ≤ hi → xs[j]? = some x → x ≤ m) := by
  have hne : rowSlice xs lo hi ≠ [] := by
    have hl := length_rowSlice xs lo hi
    intro hcon
    rw [hcon] at hl
    simp at hl
    omega
  obtain ⟨m, hm⟩ := seriesMax_of_ne_nil hne
  obtain ⟨hmem, hub⟩ := seriesMax_spec hm
  refine ⟨m, hm, mem_rowSlice.mp hmem, ?_⟩
  intro j x hj1 hj2 hjx
  exact hub x (mem_rowSlice.mpr ⟨j, hj1, hj2, hjx⟩)

/-- The minimum over the row window `[lo, hi]` of a column. -/
theorem slice_min_spec (xs : List ℚ) (lo hi : ℕ)
    (hlo : lo ≤ hi) (hhi : hi < xs.length) :
    ∃ m, seriesMin (rowSlice xs lo hi) = some m ∧
      (∃ j, lo ≤ j ∧ j ≤ hi ∧ xs[j]? = some m) ∧
      (∀ j x, lo ≤ j → j ≤ hi → xs[j]? = some x → m ≤ x) := by
  have hne : rowSlice xs lo hi ≠ [] := by
    have hl := length_rowSlice xs lo hi
    intro hcon
    rw [hcon] at hl
    simp at hl
    omega
  obtain ⟨m, hm⟩ := seriesMin_of_ne_nil hne
  obtain ⟨hmem, hlb⟩ := seriesMin_spec hm
  refine ⟨m, hm, mem_rowSlice.mp hmem, ?_⟩
  intro j x hj1 hj2 hjx
  exact hlb x (mem_rowSlice.mpr ⟨j, hj1, hj2, hjx⟩)

/-! ## C1: trailing extremes -/

/-- C1: for every series and every window length `W ≥ 1`, the trailing-high
column at row `i` equals the maximum of `High` over rows
`[max(0, i-W+1), i]` and the trailing-low column the minimum of `Low` over
the same rows; both are defined (non-NaN) at every row, including the first
`W-1` rows where the window is shorter than `W`. -/
theorem trailing_extremes_are_window_extremes (data : List Bar) (W i : ℕ)
    (hW : 1 ≤ W) (hi : i < data.length) :
    ∃ mh ml,
      (calculate_historical_high data W)[i]? = some (some mh) ∧
      (∃ j, i + 1 - W ≤ j ∧ j ≤ i ∧ (data.map Bar.High)[j]? = some mh) ∧
      (∀ j x, i + 1 - W ≤ j → j ≤ i → (data.map Bar.High)[j]? = some x → x ≤ mh) ∧
      (calculate_historical_low data W)[i]? = some (some ml) ∧
      (∃ j, i + 1 - W ≤ j ∧ j ≤ i ∧ (data.map Bar.Low)[j]? = some ml) ∧
      (∀ j x, i + 1 - W ≤ j → j ≤ i → (data.map Bar.Low)[j]? = some x → ml ≤ x) := by
  have hH : (calculate_historical_high data W)[i]? =
      some (seriesMax (rowSlice (data.map Bar.High) (i + 1 - W) i)) := by
    simp [calculate_historical_high, List.getElem?_range hi]
  have hL : (calculate_historical_low data W)[i]? =
      some (seriesMin (rowSlice (data.map Bar.Low) (i + 1 - W) i)) := by
    simp [calculate_historical_low, List.getElem?_range hi]
  obtain ⟨mh, hmh, hmemh, hubh⟩ :=
    slice_max_spec (data.map Bar.High) (i + 1 - W) i
      (by omega) (by rw [List.length_map]; exact hi)
  obtain ⟨ml, hml, hmeml, hlbl⟩ :=
    slice_min_spec (data.map Bar.Low) (i + 1 - W) i
      (by omega) (by rw [List.length_map]; exact hi)
  exact ⟨mh, ml, by rw [hH, hmh], hmemh, hubh, by rw [hL, hml], hmeml, hlbl⟩

/-- Witness for C1 at the spec's concrete scenario (`W = 3`, `i = 3`:
trailing high `15`, trailing low `4`). -/
theorem trailing_extremes_witness :
    ∃ mh ml,
      (calculate_historical_high exampleBars 3)[3]? = some (some mh) ∧
      (∃ j, 3 + 1 - 3 ≤ j ∧ j ≤ 3 ∧ (exampleBars.map Bar.High)[j]? = some mh) ∧
      (∀ j x, 3 + 1 - 3 ≤ j → j ≤ 3 → (exampleBars.map Bar.High)[j]? = some x → x ≤ mh) ∧
      (calculate_historical_low exampleBars 3)[3]? = some (some ml) ∧
      (∃ j, 3 + 1 - 3 ≤ j ∧ j ≤ 3 ∧ (exampleBars.map Bar.Low)[j]? = some ml) ∧
      (∀ j x, 3 + 1 - 3 ≤ j → j ≤ 3 → (exampleBars.map Bar.Low)[j]? = some x → ml ≤ x) :=
  trailing_extremes_are_window_extremes exampleBars 3 3 (by decide) (by decide)

/-! ## C2, C10: forward extremes -/

theorem future_high_entry (data : List Bar) (V i : ℕ) (hi : i < data.length) :
    (calculate_future_high data V)[i]? = some (
      if i < data.length - 1 then
        seriesMax (((data.map Bar.High).take (min data.length (i + V))).drop (i + 1))
      else (data.map Bar.High)[i]?) := by
  simp [calculate_future_high, List.getElem?_range hi]

theorem future_low_entry (data : List Bar) (V i : ℕ) (hi : i < data.length) :
    (calculate_future_low data V)[i]? = some (
      if i < data.length - 1 then
        seriesMin (((data.map Bar.Low).take (min data.length (i + V))).drop (i + 1))
      else (data.map Bar.Low)[i]?) := by
  simp [calculate_future_low, List.getElem?_range hi]

/-- At the last row both forward extremes fall back to the row's own
`High`/`Low` value, for every window length. -/
theorem future_last_row (data : List Bar) (V : ℕ) (hne : data ≠ []) :
    ∃ h l, (data.map Bar.High)[data.length - 1]? = some h ∧
      (data.map Bar.Low)[data.length - 1]? = some l ∧
      (calculate_future_high data V)[data.length - 1]? = some (some h) ∧
      (calculate_future_low data V)[data.length - 1]? = some (some l) := by
  have hpos : 0 < data.length := List.length_pos.mpr hne
  have hlt : data.length - 1 < data.length := by omega
  have hH := future_high_entry data V (data.length - 1) hlt
  have hL := future_low_entry data V (data.length - 1) hlt
  rw [if_neg (by omega)] at hH
  rw [if_neg (by omega)] at hL
  have hbH : data.length - 1 < (data.map Bar.High).length := by
    rw [List.length_map]; exact hlt
  have hbL : data.length - 1 < (data.map Bar.Low).length := by
    rw [List.length_map]; exact hlt
  refine ⟨(data.map Bar.High)[data.length - 1], (data.map Bar.Low)[data.length - 1],
    List.getElem?_eq_getElem hbH, List.getElem?_eq_getElem hbL, ?_, ?_⟩
  · rw [hH, List.getElem?_eq_getElem hbH]
  · rw [hL, List.getElem?_eq_getElem hbL]

/-- For a non-last row, the code's forward slice is the row window
`[i+1, min(N-1, i+V-1)]`. -/
theorem future_slice_eq {α : Type} (xs : List α) (N V i : ℕ)
    (hN : xs.length = N) (hi : i < N - 1) (hV : 1 ≤ V) :
    (xs.take (min N (i + V))).drop (i + 1) =
      rowSlice xs (i + 1) (min (N - 1) (i + V - 1)) := by
  rw [rowSlice]
  have : min (N - 1) (i + V - 1) + 1 = min N (i + V) := by omega
  rw [this]

/-- C2: for every series of `N` rows and forward window `V ≥ 1`, the
forward-high at every row but the last is the maximum of `High` over rows
`i+1 .. min(N-1, i+V-1)` (strictly after `i`; `none` when that range is
empty, i.e. `V = 1`), attained and bounding when `V ≥ 2`; at the last row
it is the row's own `High` (self-fallback, not a null). Forward-low is the
symmetric minimum over `Low`. -/
theorem future_extremes_spec (data : List Bar) (V : ℕ) (hV : 1 ≤ V) :
    (∀ i, i < data.length - 1 →
      ((calculate_future_high data V)[i]? =
        some (seriesMax (rowSlice (data.map Bar.High) (i + 1)
          (min (data.length - 1) (i + V - 1)))) ∧
       (calculate_future_low data V)[i]? =
        some (seriesMin (rowSlice (data.map Bar.Low) (i + 1)
          (min (data.length - 1) (i + V - 1)))) ∧
       (2 ≤ V →
        (∃ mh, (calculate_future_high data V)[i]? = some (some mh) ∧
          (∃ j, i + 1 ≤ j ∧ j ≤ min (data.length - 1) (i + V - 1) ∧
            (data.map Bar.High)[j]? = some mh) ∧
          (∀ j x, i + 1 ≤ j → j ≤ min (data.length - 1) (i + V - 1) →
            (data.map Bar.High)[j]? = some x → x ≤ mh)) ∧
        (∃ ml, (calculate_future_low data V)[i]? = some (some ml) ∧
          (∃ j, i + 1 ≤ j ∧ j ≤ min (data.length - 1) (i + V - 1) ∧
            (data.map Bar.Low)[j]? = some ml) ∧
          (∀ j x, i + 1 ≤ j → j ≤ min (data.length - 1) (i + V - 1) →
            (data.map Bar.Low)[j]? = some x → ml ≤ x))))) ∧
    (data ≠ [] →
      ∃ h l, (data.map Bar.High)[data.length - 1]? = some h ∧
        (data.map Bar.Low)[data.length - 1]? = some l ∧
        (calculate_future_high data V)[data.length - 1]? = some (some h) ∧
        (calculate_future_low data V)[data.length - 1]? = some (some l)) := by
  constructor
  · intro i hi
    have hiN : i < data.length := by omega
    have hH := future_high_entry data V i hiN
    have hL := future_low_entry data V i hiN
    rw [if_pos hi] at hH
    rw [if_pos hi] at hL
    rw [future_slice_eq (data.map Bar.High) data.length V i (List.length_map _ _) hi hV] at hH
    rw [future_slice_eq (data.map Bar.Low) data.length V i (List.length_map _ _) hi hV] at hL
    refine ⟨hH, hL, ?_⟩
    intro hV2
    have hlo : i + 1 ≤ min (data.length - 1) (i + V - 1) := by omega
    have hhiH : min (data.length - 1) (i + V - 1) < (data.map Bar.High).length := by
      rw [List.length_map]; omega
    have hhiL : min (data.length - 1) (i + V - 1) < (data.map Bar.Low).length := by
      rw [List.length_map]; omega
    obtain ⟨mh, hmh, hmemh, hubh⟩ := slice_max_spec (data.map Bar.High) (i + 1)
      (min (data.length - 1) (i + V - 1)) hlo hhiH
    obtain ⟨ml, hml, hmeml, hlbl⟩ := slice_min_spec (data.map Bar.Low) (i + 1)
      (min (data.length - 1) (i + V - 1)) hlo hhiL
    exact ⟨⟨mh, by rw [hH, hmh], hmemh, hubh⟩, ⟨ml, by rw [hL, hml], hmeml, hlbl⟩⟩
  · exact future_last_row data V

/-- Witness for C2 at the spec's scenario: `V = 2`, forward-high at index 2
is `15`, and at the last index `4` it is the row's own high `11`. -/
theorem future_extremes_witness :
    (calculate_future_high exampleBars 2)[2]? = some (some 15) ∧
    (calculate_future_high exampleBars 2)[4]? = some (some 11) := by
  constructor
  · have h := ((future_extremes_spec exampleBars 2 (by decide)).1 2 (by decide)).1
    rw [h]; decide
  · obtain ⟨h, l, hg, _, hH, _⟩ :=
      (future_extremes_spec exampleBars 2 (by decide)).2 (by decide)
    have h11 : (exampleBars.map Bar.High)[exampleBars.length - 1]? = some (11 : ℚ) := by
      decide
    rw [hg] at h11
    have he : h = 11 := Option.some.inj h11
    subst he
    exact hH

/-- C10: for `V = 1` the forward slice at every non-last row is empty, so
the forward-high/low are the NaN of an empty `.max()`/`.min()` — not the
row's own `High`/`Low`; the self-referential fallback applies only at the
last row, and does so for every `V`. -/
theorem future_window_one_nan (data : List Bar) (i : ℕ) :
    (i < data.length - 1 →
      (calculate_future_high data 1)[i]? = some none ∧
      (calculate_future_low data 1)[i]? = some none) ∧
    (∀ V, data ≠ [] →
      ∃ h l, (data.map Bar.High)[data.length - 1]? = some h ∧
        (data.map Bar.Low)[data.length - 1]? = some l ∧
        (calculate_future_high data V)[data.length - 1]? = some (some h) ∧
        (calculate_future_low data V)[data.length - 1]? = some (some l)) := by
  constructor
  · intro hi
    have hiN : i < data.length := by omega
    have hH := future_high_entry data 1 i hiN
    have hL := future_low_entry data 1 i hiN
    rw [if_pos hi] at hH
    rw [if_pos hi] at hL
    have hsliceH : ((data.map Bar.High).take (min data.length (i + 1))).drop (i + 1) = [] := by
      apply List.drop_eq_nil_of_le
      rw [List.length_take]
      omega
    have hsliceL : ((data.map Bar.Low).take (min data.length (i + 1))).drop (i + 1) = [] := by
      apply List.drop_eq_nil_of_le
      rw [List.length_take]
      omega
    rw [hsliceH] at hH
    rw [hsliceL] at hL
    exact ⟨hH, hL⟩
  · intro V hne
    exact future_last_row data V hne

/-- Witness for C10: in the 5-row series with `V = 1`, row 0 gets NaN
forward extremes; with `V = 3` the last row falls back to its own values. -/
theorem future_window_one_nan_witness :
    ((calculate_future_high exampleBars 1)[0]? = some none ∧
      (calculate_future_low exampleBars 1)[0]? = some none) ∧
    (∃ h l, (exampleBars.map Bar.High)[exampleBars.length - 1]? = some h ∧
      (exampleBars.map Bar.Low)[exampleBars.length - 1]? = some l ∧
      (calculate_future_high exampleBars 3)[exampleBars.length - 1]? = some (some h) ∧
      (calculate_future_low exampleBars 3)[exampleBars.length - 1]? = some (some l)) :=
  ⟨(future_window_one_nan exampleBars 0).1 (by decide),
   (future_window_one_nan exampleBars 0).2 3 (by decide)⟩

/-! ## C3: placeholder zero before a full window -/

/-- C3: for `i < W-1` the days-since-high/low entries are the literal
placeholder `0` (`some 0`) — not the general `days_since_*` formula and
not the unavailable marker (`none`). -/
theorem days_since_placeholder_zero (data : List Bar) (W i : ℕ)
    (hi : i < data.length) (hiW : i < W - 1) :
    (days_since_high_column data W)[i]? = some (some 0) ∧
    (days_since_low_column data W)[i]? = some (some 0) := by
  have hcond : ¬ W - 1 ≤ i := by omega
  have hH : (days_since_high_column data W)[i]? =
      some (if W - 1 ≤ i then days_since_high data i W else some 0) := by
    simp [days_since_high_column, List.getElem?_range hi]
  have hL : (days_since_low_column data W)[i]? =
      some (if W - 1 ≤ i then days_since_low data i W else some 0) := by
    simp [days_since_low_column, List.getElem?_range hi]
  rw [hH, hL, if_neg hcond, if_neg hcond]
  exact ⟨rfl, rfl⟩

/-- Witness for C3 at `W = 3`, `i = 1` in the concrete series. -/
theorem days_since_placeholder_zero_witness :
    (days_since_high_column exampleBars 3)[1]? = some (some 0) ∧
    (days_since_low_column exampleBars 3)[1]? = some (some 0) :=
  days_since_placeholder_zero exampleBars 3 1 (by decide) (by decide)

/-! ## C4: days since the most recent window extreme -/

/-- In a list whose `f`-projections are strictly increasing, the `.max()`
of the projections of the rows matching `p` is the projection of the
*last* matching row: there is a position `t` holding a matching row with
projection the maximum, and no later position matches. -/
theorem filter_date_max_last {α : Type} (f : α → ℤ) (p : α → Bool) :
    ∀ (l : List α), (l.map f).Pairwise (· < ·) → ∀ d : ℤ,
      seriesMax ((l.filter p).map f) = some d →
      ∃ (t : ℕ) (a : α), l[t]? = some a ∧ f a = d ∧ p a = true ∧
        ∀ (u : ℕ) (b : α), t < u → l[u]? = some b → p b = false := by
  intro l
  induction l with
  | nil => intro _ d hd; simp [seriesMax] at hd
  | cons a as ih =>
    intro hpair d hd
    rw [List.map_cons, List.pairwise_cons] at hpair
    obtain ⟨ha, hrest⟩ := hpair
    by_cases hp : p a = true
    · rw [List.filter_cons_of_pos hp, List.map_cons] at hd
      rw [seriesMax] at hd
      cases hrec : seriesMax ((as.filter p).map f) with
      | none =>
        rw [hrec] at hd
        simp only [Option.some.injEq] at hd
        subst hd
        have hnil : as.filter p = [] :=
          List.map_eq_nil_iff.mp (seriesMax_eq_none hrec)
        refine ⟨0, a, by simp, rfl, hp, ?_⟩
        intro u b hu hub
        obtain ⟨u', rfl⟩ := Nat.exists_eq_add_of_lt hu
        rw [Nat.zero_add, List.getElem?_cons_succ] at hub
        have hbmem : b ∈ as := List.getElem?_mem hub
        by_contra hcon
        have : b ∈ as.filter p := List.mem_filter.mpr ⟨hbmem, by
          cases hpb : p b with
          | false => exact absurd hpb hcon
          | true => rfl⟩
        rw [hnil] at this
        exact absurd this (List.not_mem_nil b)
      | some m' =>
        rw [hrec] at hd
        simp only [Option.some.injEq] at hd
        obtain ⟨hmem', _⟩ := seriesMax_spec hrec
        obtain ⟨c, hc, hfc⟩ := List.mem_map.mp hmem'
        have hcas : c ∈ as := (List.mem_filter.mp hc).1
        have hlt : f a < m' := by
          rw [← hfc]
          exact ha (f c) (List.mem_map.mpr ⟨c, hcas, rfl⟩)
        have hdm : d = m' := by
          rw [← hd, max_eq_right (le_of_lt hlt)]
        obtain ⟨t', a', hta, hfa, hpa, hlater⟩ := ih hrest m' hrec
        refine ⟨t' + 1, a', by rwa [List.getElem?_cons_succ],
          by rw [hfa, hdm], hpa, ?_⟩
        intro u b hu hub
        obtain ⟨u', rfl⟩ := Nat.exists_eq_add_of_lt hu
        have : t' + 1 + u' + 1 = (t' + u' + 1) + 1 := by omega
        rw [this, List.getElem?_cons_succ] at hub
        exact hlater (t' + u' + 1) b (by omega) hub
    · rw [List.filter_cons_of_neg hp] at hd
      obtain ⟨t', a', hta, hfa, hpa, hlater⟩ := ih hrest d hd
      refine ⟨t' + 1, a', by rwa [List.getElem?_cons_succ], hfa, hpa, ?_⟩
      intro u b hu hub
      obtain ⟨u', rfl⟩ := Nat.exists_eq_add_of_lt hu
      have : t' + 1 + u' + 1 = (t' + u' + 1) + 1 := by omega
      rw [this, List.getElem?_cons_succ] at hub
      exact hlater (t' + u' + 1) b (by omega) hub

/-- Core property of `days_since_ext` (shared by the high and low cases):
with strictly increasing dates, the returned value is the calendar gap
between row `i`'s date and the date of the *most recent* row of the window
`[max(0, i-W+1), i]` whose selected price attains the window extreme. -/
theorem days_since_ext_spec (sel : Bar → ℚ) (ext : List ℚ → Option ℚ)
    (R : ℚ → ℚ → Prop)
    (hne : ∀ l : List ℚ, l ≠ [] → ∃ m, ext l = some m)
    (hspec : ∀ (l : List ℚ) (m : ℚ), ext l = some m → m ∈ l ∧ ∀ x ∈ l, R x m)
    (data : List Bar) (W i : ℕ)
    (hW : 1 ≤ W) (hi : i < data.length)
    (hmono : (data.map Bar.Date).Pairwise (· < ·)) :
    ∃ (j : ℕ) (mv : ℚ) (di dj : ℤ), i + 1 - W ≤ j ∧ j ≤ i ∧
      (data.map sel)[j]? = some mv ∧
      (∀ (k : ℕ) (x : ℚ), i + 1 - W ≤ k → k ≤ i →
        (data.map sel)[k]? = some x → R x mv) ∧
      (∀ (k : ℕ) (x : ℚ), j < k → k ≤ i →
        (data.map sel)[k]? = some x → x ≠ mv) ∧
      (data.map Bar.Date)[i]? = some di ∧
      (data.map Bar.Date)[j]? = some dj ∧
      days_since_ext sel ext data i W = some (di - dj) := by
  have hlen := length_rowSlice data (i + 1 - W) i
  have hsubne : rowSlice data (i + 1 - W) i ≠ [] := by
    intro hc
    rw [hc] at hlen
    simp at hlen
    omega
  have hmapne : (rowSlice data (i + 1 - W) i).map sel ≠ [] := by
    intro hc
    exact hsubne (List.map_eq_nil_iff.mp hc)
  obtain ⟨hv, hhv⟩ := hne _ hmapne
  obtain ⟨hvmem, hvub⟩ := hspec _ _ hhv
  have hunfold : days_since_ext sel ext data i W =
      match seriesMax (((rowSlice data (i + 1 - W) i).filter
          fun b => decide (some (sel b) =
            ext ((rowSlice data (i + 1 - W) i).map sel))).map Bar.Date),
        (data.map Bar.Date)[i]? with
      | some d, some di => some (di - d)
      | _, _ => none := rfl
  rw [hhv] at hunfold
  obtain ⟨b0, hb0mem, hb0sel⟩ := List.mem_map.mp hvmem
  have hfilterne : (rowSlice data (i + 1 - W) i).filter
      (fun b => decide (some (sel b) = some hv)) ≠ [] := by
    intro hc
    exact List.filter_eq_nil_iff.mp hc b0 hb0mem (by simp [hb0sel])
  have hfmapne : ((rowSlice data (i + 1 - W) i).filter
      (fun b => decide (some (sel b) = some hv))).map Bar.Date ≠ [] := by
    intro hc
    exact hfilterne (List.map_eq_nil_iff.mp hc)
  obtain ⟨d, hd⟩ := seriesMax_of_ne_nil hfmapne
  have hsubpair : ((rowSlice data (i + 1 - W) i).map Bar.Date).Pairwise (· < ·) := by
    rw [rowSlice, List.map_drop, List.map_take]
    exact List.Pairwise.sublist
      ((List.drop_sublist _ _).trans (List.take_sublist _ _)) hmono
  obtain ⟨t, a, hta, hfa, hpa, hlater⟩ :=
    filter_date_max_last Bar.Date (fun b => decide (some (sel b) = some hv))
      (rowSlice data (i + 1 - W) i) hsubpair d hd
  have htbound : t < (rowSlice data (i + 1 - W) i).length :=
    (List.getElem?_eq_some.mp hta).1
  have hjlt : i + 1 - W + t < i + 1 := by omega
  have hdata : data[i + 1 - W + t]? = some a := by
    have hsg := rowSlice_getElem? data (i + 1 - W) i t
    rw [hta, if_pos hjlt] at hsg
    exact hsg.symm
  have hsel : sel a = hv := Option.some.inj (of_decide_eq_true hpa)
  have hmapj : (data.map sel)[i + 1 - W + t]? = some hv := by
    rw [List.getElem?_map, hdata, Option.map_some', hsel]
  have hidx : i < (data.map Bar.Date).length := by
    rw [List.length_map]
    exact hi
  have hdj : (data.map Bar.Date)[i + 1 - W + t]? = some d := by
    rw [List.getElem?_map, hdata, Option.map_some', hfa]
  refine ⟨i + 1 - W + t, hv, (data.map Bar.Date)[i], d,
    Nat.le_add_right _ _, by omega, hmapj, ?_, ?_,
    List.getElem?_eq_getElem hidx, hdj, ?_⟩
  · intro k x hk1 hk2 hkx
    apply hvub
    have hcomm : (rowSlice data (i + 1 - W) i).map sel =
        rowSlice (data.map sel) (i + 1 - W) i := by
      rw [rowSlice, rowSlice, List.map_drop, List.map_take]
    rw [hcomm]
    exact mem_rowSlice.mpr ⟨k, hk1, hk2, hkx⟩
  · intro k x hk1 hk2 hkx
    rw [List.getElem?_map] at hkx
    cases hbk : data[k]? with
    | none =>
      rw [hbk] at hkx
      exact absurd hkx (by simp)
    | some bk =>
      rw [hbk, Option.map_some'] at hkx
      have hselbk : sel bk = x := Option.some.inj hkx
      have hsub : (rowSlice data (i + 1 - W) i)[k - (i + 1 - W)]? = some bk := by
        rw [rowSlice_getElem?, if_pos (by omega),
          Nat.add_sub_cancel' (by omega : i + 1 - W ≤ k)]
        exact hbk
      have hpb := hlater (k - (i + 1 - W)) bk (by omega) hsub
      have hnot := of_decide_eq_false hpb
      intro hxeq
      exact hnot (by rw [hselbk, hxeq])
  · rw [hunfold, hd, List.getElem?_eq_getElem hidx]

/-- C4: for `W ≥ 1` and `i ≥ W-1` with strictly increasing dates, the
days-since-high entry at row `i` is the calendar-day gap between bar `i`'s
date and the date of the most recent row of the window `[i-W+1, i]` whose
`High` attains the window maximum (ties broken toward the occurrence
closest to `i`); days-since-low is symmetric over `Low`. -/
theorem days_since_most_recent_extreme (data : List Bar) (W i : ℕ)
    (hW : 1 ≤ W) (hiW : W - 1 ≤ i) (hi : i < data.length)
    (hmono : (data.map Bar.Date).Pairwise (· < ·)) :
    (∃ (j : ℕ) (mh : ℚ) (di dj : ℤ), i + 1 - W ≤ j ∧ j ≤ i ∧
      (data.map Bar.High)[j]? = some mh ∧
      (∀ (k : ℕ) (x : ℚ), i + 1 - W ≤ k → k ≤ i →
        (data.map Bar.High)[k]? = some x → x ≤ mh) ∧
      (∀ (k : ℕ) (x : ℚ), j < k → k ≤ i →
        (data.map Bar.High)[k]? = some x → x ≠ mh) ∧
      (data.map Bar.Date)[i]? = some di ∧
      (data.map Bar.Date)[j]? = some dj ∧
      (days_since_high_column data W)[i]? = some (some (di - dj))) ∧
    (∃ (j : ℕ) (ml : ℚ) (di dj : ℤ), i + 1 - W ≤ j ∧ j ≤ i ∧
      (data.map Bar.Low)[j]? = some ml ∧
      (∀ (k : ℕ) (x : ℚ), i + 1 - W ≤ k → k ≤ i →
        (data.map Bar.Low)[k]? = some x → ml ≤ x) ∧
      (∀ (k : ℕ) (x : ℚ), j < k → k ≤ i →
        (data.map Bar.Low)[k]? = some x → x ≠ ml) ∧
      (data.map Bar.Date)[i]? = some di ∧
      (data.map Bar.Date)[j]? = some dj ∧
      (days_since_low_column data W)[i]? = some (some (di - dj))) := by
  have hcolH : (days_since_high_column data W)[i]? =
      some (days_since_high data i W) := by
    have h0 : (days_since_high_column data W)[i]? =
        some (if W - 1 ≤ i then days_since_high data i W else some 0) := by
      simp [days_since_high_column, List.getElem?_range hi]
    rw [h0, if_pos hiW]
  have hcolL : (days_since_low_column data W)[i]? =
      some (days_since_low data i W) := by
    have h0 : (days_since_low_column data W)[i]? =
        some (if W - 1 ≤ i then days_since_low data i W else some 0) := by
      simp [days_since_low_column, List.getElem?_range hi]
    rw [h0, if_pos hiW]
  constructor
  · obtain ⟨j, mv, di, dj, h1, h2, h3, h4, h5, h6, h7, h8⟩ :=
      days_since_ext_spec Bar.High seriesMax (· ≤ ·)
        (fun _ h => seriesMax_of_ne_nil h)
        (fun _ _ h => seriesMax_spec h)
        data W i hW hi hmono
    exact ⟨j, mv, di, dj, h1, h2, h3, h4, h5, h6, h7,
      by rw [hcolH, days_since_high, h8]⟩
  · obtain ⟨j, mv, di, dj, h1, h2, h3, h4, h5, h6, h7, h8⟩ :=
      days_since_ext_spec Bar.Low seriesMin (fun x m => m ≤ x)
        (fun _ h => seriesMin_of_ne_nil h)
        (fun _ _ h => seriesMin_spec h)
        data W i hW hi hmono
    exact ⟨j, mv, di, dj, h1, h2, h3, h4, h5, h6, h7,
      by rw [hcolL, days_since_low, h8]⟩

/-- Witness for C4 at `W = 3`, `i = 4` in the concrete series (window max
`15` at row 3 of dates `0..4`: one day since the high, two since the low). -/
theorem days_since_most_recent_extreme_witness :
    (∃ (j : ℕ) (mh : ℚ) (di dj : ℤ), 4 + 1 - 3 ≤ j ∧ j ≤ 4 ∧
      (exampleBars.map Bar.High)[j]? = some mh ∧
      (∀ (k : ℕ) (x : ℚ), 4 + 1 - 3 ≤ k → k ≤ 4 →
        (exampleBars.map Bar.High)[k]? = some x → x ≤ mh) ∧
      (∀ (k : ℕ) (x : ℚ), j < k → k ≤ 4 →
        (exampleBars.map Bar.High)[k]? = some x → x ≠ mh) ∧
      (exampleBars.map Bar.Date)[4]? = some di ∧
      (exampleBars.map Bar.Date)[j]? = some dj ∧
      (days_since_high_column exampleBars 3)[4]? = some (some (di - dj))) ∧
    (∃ (j : ℕ) (ml : ℚ) (di dj : ℤ), 4 + 1 - 3 ≤ j ∧ j ≤ 4 ∧
      (exampleBars.map Bar.Low)[j]? = some ml ∧
      (∀ (k : ℕ) (x : ℚ), 4 + 1 - 3 ≤ k → k ≤ 4 →
        (exampleBars.map Bar.Low)[k]? = some x → ml ≤ x) ∧
      (∀ (k : ℕ) (x : ℚ), j < k → k ≤ 4 →
        (exampleBars.map Bar.Low)[k]? = some x → x ≠ ml) ∧
      (exampleBars.map Bar.Date)[4]? = some di ∧
      (exampleBars.map Bar.Date)[j]? = some dj ∧
      (days_since_low_column exampleBars 3)[4]? = some (some (di - dj))) :=
  days_since_most_recent_extreme exampleBars 3 4
    (by decide) (by decide) (by decide) (by decide)

/-! ## C5: normalization -/

/-- Counterexample to C5 as stated: on an input with two bars of the same
date, the normalizer (`sort_values` + `reset_index`) keeps both rows, so
the timestamps after normalization are `[5, 5]` — *not* strictly
increasing and duplicate-free. -/
theorem normalize_duplicate_dates_not_strict :
    ¬ ((sortBars dupBars).map Bar.Date).Pairwise (· < ·) := by decide

/-- C5 (amended): for every input, normalization produces a permutation of
the rows (dense zero-based positional index) sorted non-decreasing by
date; the timestamps are strictly increasing, with no duplicates, whenever
the input dates contain no duplicates. -/
theorem normalize_sorted_perm (data : List Bar) :
    ((sortBars data).map Bar.Date).Pairwise (· ≤ ·) ∧
    (sortBars data).Perm data ∧
    ((data.map Bar.Date).Nodup →
      ((sortBars data).map Bar.Date).Pairwise (· < ·)) := by
  have hsorted : List.Pairwise (fun a b : Bar => a.Date ≤ b.Date) (sortBars data) :=
    List.sorted_insertionSort (fun a b : Bar => a.Date ≤ b.Date) data
  have hperm : (sortBars data).Perm data :=
    List.perm_insertionSort (fun a b : Bar => a.Date ≤ b.Date) data
  have hle : ((sortBars data).map Bar.Date).Pairwise (· ≤ ·) :=
    List.pairwise_map.mpr hsorted
  refine ⟨hle, hperm, ?_⟩
  intro hnd
  have hpermD : ((sortBars data).map Bar.Date).Perm (data.map Bar.Date) :=
    hperm.map Bar.Date
  have hnd' : ((sortBars data).map Bar.Date).Nodup :=
    hpermD.nodup_iff.mpr hnd
  exact (hle.and hnd').imp fun h => lt_of_le_of_ne h.1 h.2

/-- Witness for the amended C5 on a scrambled, duplicate-free input. -/
theorem normalize_sorted_perm_witness :
    ((sortBars scrambledBars).map Bar.Date).Pairwise (· ≤ ·) ∧
    (sortBars scrambledBars).Perm scrambledBars ∧
    ((sortBars scrambledBars).map Bar.Date).Pairwise (· < ·) :=
  ⟨(normalize_sorted_perm scrambledBars).1,
   (normalize_sorted_perm scrambledBars).2.1,
   (normalize_sorted_perm scrambledBars).2.2 (by decide)⟩

/-! ## C6, C8: percentage difference -/

/-- C6: the percentage-difference utility computes
`round((current - reference) / reference * 100, 2)` element-wise; it gives
`10.00` for `(110, 100)` and `-10.00` for `(90, 100)`; and the same
utility, with the same formula and rounding, produces all four historical
and forward percentage-deviation columns of the pipeline. -/
theorem pct_diff_formula :
    (∀ (c r : ℚ), r ≠ 0 →
      pctDiffVal c (some r) = FVal.fin (round2 ((c - r) / r * 100))) ∧
    pctDiffVal 110 (some 100) = FVal.fin 10 ∧
    pctDiffVal 90 (some 100) = FVal.fin (-10) ∧
    (∀ (current : List ℚ) (reference : List (Option ℚ)) (i : ℕ)
      (c : ℚ) (r : Option ℚ), current[i]? = some c → reference[i]? = some r →
      (calculate_pct_diff current reference)[i]? = some (pctDiffVal c r)) ∧
    (∀ (data : List Bar) (W V : ℕ),
      (calculate_metrics data W V).Pct_Diff_From_High_Last =
        calculate_pct_diff ((sortBars data).map Bar.Close)
          (calculate_historical_high (sortBars data) W) ∧
      (calculate_metrics data W V).Pct_Diff_From_Low_Last =
        calculate_pct_diff ((sortBars data).map Bar.Close)
          (calculate_historical_low (sortBars data) W) ∧
      (calculate_metrics data W V).Pct_Diff_From_High_Next =
        calculate_pct_diff ((sortBars data).map Bar.Close)
          (calculate_future_high (sortBars data) V) ∧
      (calculate_metrics data W V).Pct_Diff_From_Low_Next =
        calculate_pct_diff ((sortBars data).map Bar.Close)
          (calculate_future_low (sortBars data) V)) := by
  refine ⟨?_, ?_, ?_, ?_, ?_⟩
  · intro c r hr
    simp [pctDiffVal, hr]
  · norm_num [pctDiffVal, round2, roundHalfEven]
  · norm_num [pctDiffVal, round2, roundHalfEven]
  · intro current reference i c r hc hr
    rw [calculate_pct_diff, List.getElem?_zipWith, hc, hr]
  · intro data W V
    exact ⟨rfl, rfl, rfl, rfl⟩

/-- Witness for C6: the hand-computed values and one element-wise
application. -/
theorem pct_diff_formula_witness :
    pctDiffVal 110 (some 100) = FVal.fin (round2 ((110 - 100) / 100 * 100)) ∧
    pctDiffVal 90 (some 100) = FVal.fin (round2 ((90 - 100) / 100 * 100)) ∧
    (calculate_pct_diff [110] [some 100])[0]? =
      some (pctDiffVal 110 (some 100)) :=
  ⟨pct_diff_formula.1 110 100 (by norm_num),
   pct_diff_formula.1 90 100 (by norm_num),
   pct_diff_formula.2.2.2.1 [110] [some 100] 0 110 (some 100)
     (by decide) (by decide)⟩

/-- C8: a zero reference extreme is not trapped: the element degrades to a
non-finite value (`inf`, `-inf` or NaN) which is propagated in the output
column (the computation is total — no error is raised). -/
theorem pct_diff_zero_reference_nonfinite (current : List ℚ)
    (reference : List (Option ℚ)) (i : ℕ) (c : ℚ)
    (hc : current[i]? = some c) (hr : reference[i]? = some (some 0)) :
    ∃ v, (calculate_pct_diff current reference)[i]? = some v ∧
      v.isFinite = false := by
  refine ⟨pctDiffVal c (some 0), ?_, ?_⟩
  · rw [calculate_pct_diff, List.getElem?_zipWith, hc, hr]
  · have hv : pctDiffVal c (some 0) =
        if 0 < c then FVal.inf else if c < 0 then FVal.ninf else FVal.nan := by
      simp [pctDiffVal]
    rw [hv]
    split_ifs <;> rfl

/-- Witness for C8 at `current = [5]`, `reference = [0]`. -/
theorem pct_diff_zero_reference_nonfinite_witness :
    ∃ v, (calculate_pct_diff [5] [some 0])[0]? = some v ∧
      v.isFinite = false :=
  pct_diff_zero_reference_nonfinite [5] [some 0] 0 5 (by decide) (by decide)

/-! ## C7: feature/target assembly round-trip -/

/-- C7: selecting the four feature columns and two target columns with the
same `W`, `V` the pipeline computed always succeeds; selecting with any
`W' ≠ W` (or `V' ≠ V`) fails with a missing-column error that names
exactly the absent columns — no default is substituted. -/
theorem assembler_round_trip (W V Wp Vp : ℕ) :
    selectColumns (metricsColumns W V) (feature_columns W) =
      Except.ok (feature_columns W) ∧
    selectColumns (metricsColumns W V) (target_columns V) =
      Except.ok (target_columns V) ∧
    (Wp ≠ W → selectColumns (metricsColumns W V) (feature_columns Wp) =
      Except.error (feature_columns Wp)) ∧
    (Vp ≠ V → selectColumns (metricsColumns W V) (target_columns Vp) =
      Except.error (target_columns Vp)) := by
  refine ⟨?_, ?_, ?_, ?_⟩
  · simp [selectColumns, feature_columns, metricsColumns, List.filter]
  · simp [selectColumns, target_columns, metricsColumns, List.filter]
  · intro hW
    simp [selectColumns, feature_columns, metricsColumns, List.filter, hW]
  · intro hV
    simp [selectColumns, target_columns, metricsColumns, List.filter, hV]

/-- Witness for C7 at `W = 3`, `V = 2`, `W' = 4`, `V' = 7`. -/
theorem assembler_round_trip_witness :
    selectColumns (metricsColumns 3 2) (feature_columns 3) =
      Except.ok (feature_columns 3) ∧
    selectColumns (metricsColumns 3 2) (target_columns 2) =
      Except.ok (target_columns 2) ∧
    selectColumns (metricsColumns 3 2) (feature_columns 4) =
      Except.error (feature_columns 4) ∧
    selectColumns (metricsColumns 3 2) (target_columns 7) =
      Except.error (target_columns 7) :=
  ⟨(assembler_round_trip 3 2 4 7).1, (assembler_round_trip 3 2 4 7).2.1,
   (assembler_round_trip 3 2 4 7).2.2.1 (by decide),
   (assembler_round_trip 3 2 4 7).2.2.2 (by decide)⟩

/-! ## C9: row-count invariant -/

/-- C9: every stage preserves the row count — normalization permutes but
keeps `N` rows, and all ten derived columns have exactly `N` entries for
every `N ≥ 0` and all windows; the empty series yields empty rows and
columns from every computation (no error: everything is total). -/
theorem row_count_invariant (data : List Bar) (W V : ℕ) :
    ((calculate_metrics data W V).rows.length = data.length ∧
     (calculate_metrics data W V).High_Last.length = data.length ∧
     (calculate_metrics data W V).Days_Since_High_Last.length = data.length ∧
     (calculate_metrics data W V).Pct_Diff_From_High_Last.length = data.length ∧
     (calculate_metrics data W V).Low_Last.length = data.length ∧
     (calculate_metrics data W V).Days_Since_Low_Last.length = data.length ∧
     (calculate_metrics data W V).Pct_Diff_From_Low_Last.length = data.length ∧
     (calculate_metrics data W V).High_Next.length = data.length ∧
     (calculate_metrics data W V).Pct_Diff_From_High_Next.length = data.length ∧
     (calculate_metrics data W V).Low_Next.length = data.length ∧
     (calculate_metrics data W V).Pct_Diff_From_Low_Next.length = data.length) ∧
    calculate_metrics [] W V = ⟨[], [], [], [], [], [], [], [], [], [], []⟩ := by
  have hd : (sortBars data).length = data.length :=
    (List.perm_insertionSort (fun a b : Bar => a.Date ≤ b.Date) data).length_eq
  refine ⟨⟨hd, ?_, ?_, ?_, ?_, ?_, ?_, ?_, ?_, ?_, ?_⟩, ?_⟩
  · show (calculate_historical_high (sortBars data) W).length = data.length
    simp [calculate_historical_high, hd]
  · show (days_since_high_column (sortBars data) W).length = data.length
    simp [days_since_high_column, hd]
  · show (calculate_pct_diff ((sortBars data).map Bar.Close)
      (calculate_historical_high (sortBars data) W)).length = data.length
    simp [calculate_pct_diff, calculate_historical_high, hd]
  · show (calculate_historical_low (sortBars data) W).length = data.length
    simp [calculate_historical_low, hd]
  · show (days_since_low_column (sortBars data) W).length = data.length
    simp [days_since_low_column, hd]
  · show (calculate_pct_diff ((sortBars data).map Bar.Close)
      (calculate_historical_low (sortBars data) W)).length = data.length
    simp [calculate_pct_diff, calculate_historical_low, hd]
  · show (calculate_future_high (sortBars data) V).length = data.length
    simp [calculate_future_high, hd]
  · show (calculate_pct_diff ((sortBars data).map Bar.Close)
      (calculate_future_high (sortBars data) V)).length = data.length
    simp [calculate_pct_diff, calculate_future_high, hd]
  · show (calculate_future_low (sortBars data) V).length = data.length
    simp [calculate_future_low, hd]
  · show (calculate_pct_diff ((sortBars data).map Bar.Close)
      (calculate_future_low (sortBars data) V)).length = data.length
    simp [calculate_pct_diff, calculate_future_low, hd]
  · rfl
